import Mathlib

/-!
Verification of the cleverdog camera client (Rust) against its
natural-language specification.

The development shallowly embeds the relevant program fragments as
executable Lean definitions over byte lists (`List Nat`, each element a
byte value < 256) and proves or refutes the frozen claims about them.

Source map:
* `create_command`, `lookup`, `stream`, `send_rtcp` — `src/lib.rs`
* `Header` (RTP view)                              — `src/rtp.rs`
* `ScanInfo::try_from` (typed variant)             — `src/protocol.rs`
* `MacAddr`                                        — `src/mac.rs`
* `Version`                                        — `src/protocol/version.rs`
* `process` (frame proxy loop)                     — `src/bin/rtpproxy.rs`
-/

namespace Cleverdog

/-! ## Byte-order helpers (byteorder BigEndian writes/reads) -/

/-- Big-endian reconstruction of a `u16` from two bytes (`ReadBytesExt::read_u16::<BigEndian>`). -/
def beU16 (a b : Nat) : Nat := a * 256 + b

/-- Big-endian bytes of a `u16` value (`WriteBytesExt::write_u16::<BigEndian>`). -/
def be16 (n : Nat) : List Nat := [n / 256 % 256, n % 256]

/-- Big-endian bytes of a `u32` value (`WriteBytesExt::write_u32::<BigEndian>`). -/
def be32 (n : Nat) : List Nat :=
  [n / 16777216 % 256, n / 65536 % 256, n / 256 % 256, n % 256]

/-! ## Control-command encoding (`create_command`, lib.rs 207-222)

`MAGIC` is the two magic bytes `4d 4a` (`protocol.rs` defines the constant as
the big-endian `u16` `19786`, whose byte representation the repository's own
`test_magic_endianess` test pins to `[0x4d, 0x4a]`). -/

/-- Magic constant prepended to each camera frame, as its two big-endian bytes. -/
def MAGIC : List Nat := [0x4d, 0x4a]

/-- Opcode of the `Scan` command (`Command::as_u16`). -/
def cmdScan : Nat := 0x1004

/-- Opcode of the `ScanReply` command (`Command::as_u16`). -/
def cmdScanReply : Nat := 0x100e

/-- Opcode of the `StartRtp` command (`Command::as_u16`). -/
def cmdStartRtp : Nat := 0x1007

/-- `create_command` (lib.rs 207-222): magic, big-endian opcode, the cid
truncated to 15 bytes, right-padding with the ASCII digit `'0'` (48) up to 15
bytes, one nul terminator, then the argument bytes.  The Rust function returns
`Result` but all its writes are into an in-memory `Vec` cursor and cannot
fail, so the embedding is a total function. -/
def create_command (cmd : Nat) (cid args : List Nat) : List Nat :=
  let cid2 := if cid.length > 15 then cid.take 15 else cid
  MAGIC ++ be16 cmd ++ cid2 ++ List.replicate (15 - cid2.length) 48 ++ [0] ++ args

/-- The fixed scan argument of `lookup` (lib.rs 108): a string of 38 ASCII `'0'`s. -/
def scanArgs : List Nat := List.replicate 38 48

/-- The discovery request datagram sent by `lookup` (lib.rs 108-109):
`create_command(Command::Scan, b"", b"00…0")` with an empty cid. -/
def lookupRequest : List Nat := create_command cmdScan [] scanArgs

/-! ## RTP header view (`Header`, rtp.rs 21-58) -/

/-- `Header::from_slice` (rtp.rs 22-28): requires at least 12 bytes and views
the first 12. -/
def headerFromSlice (buf : List Nat) : Option (List Nat) :=
  if buf.length < 12 then none else some (buf.take 12)

/-- `Header::version` (rtp.rs 31-35): top two bits of byte 0 (`byte >> 6`). -/
def headerVersion (h : List Nat) : Nat := h.getD 0 0 / 64

/-- `Header::sequence_number` (rtp.rs 38-40): big-endian bytes 2..4. -/
def headerSeq (h : List Nat) : Nat := beU16 (h.getD 2 0) (h.getD 3 0)

/-- `Header::timestamp` (rtp.rs 43-45): big-endian bytes 4..8. -/
def headerTimestamp (h : List Nat) : Nat :=
  ((h.getD 4 0 * 256 + h.getD 5 0) * 256 + h.getD 6 0) * 256 + h.getD 7 0

/-- `Header::ssrc` (rtp.rs 48-50): big-endian bytes 8..12. -/
def headerSsrc (h : List Nat) : Nat :=
  ((h.getD 8 0 * 256 + h.getD 9 0) * 256 + h.getD 10 0) * 256 + h.getD 11 0

/-- Modelled from the spec: the single fixed SSRC value the firmware uses for
its video track (the spec's design notes give the value 16).  No constant for
it appears anywhere in `src/`; the `stream` receive loop of `src/lib.rs` never
reads the SSRC field at all. -/
def videoSSRC : Nat := 16

/-- One iteration of the per-datagram filter of the `stream` receive loop
(lib.rs 166-175), keep-alive pacing aside: datagrams shorter than 16 bytes are
skipped (`continue`), datagrams whose raw byte 2 is not the video value 1 are
skipped, and otherwise bytes `4..size` are forwarded.  `some payload` models
the `send_to` of the payload, `none` models `continue`. -/
def streamFilter (buf : List Nat) : Option (List Nat) :=
  if buf.length < 16 then none
  else if buf.getD 2 0 ≠ 1 then none
  else some (buf.drop 4)

/-! ## Keep-alive report (`send_rtcp`, lib.rs 181-205)

The embedding takes the current Unix time in nanoseconds (the value of
`SystemTime::now().duration_since(UNIX_EPOCH).as_nanos()`) as input and
produces the exact datagram bytes.  `1e6 as u128` in the source is `1000000`;
the two `as u32` casts are the `% 2^32` reductions. -/

/-- The keep-alive datagram built by `send_rtcp` for Unix time `nanos`
nanoseconds. -/
def sendRtcpPacket (nanos : Nat) : List Nat :=
  let msecs := nanos / 1000000 + 2208988800000
  let seconds := msecs / 1000 % 4294967296
  let fraction := 4294967296 * (msecs % 1000) / 1000 % 4294967296
  [0x00, 0x00, 0x01, 0x00, 0x80, 0xc8, 0x00, 0x06] ++
    be32 0x00000002 ++ be32 seconds ++ be32 fraction ++ be32 0 ++ be32 0 ++ be32 0

/-! ## String splitting (Rust `slice::split` / `str::split`) -/

/-- Rust `split` on one separator value: always yields at least one (possibly
empty) piece; `n` consecutive separators yield `n + 1` pieces. -/
def splitSep {α : Type} [DecidableEq α] (sep : α) : List α → List (List α)
  | [] => [[]]
  | c :: rest =>
    if c = sep then [] :: splitSep sep rest
    else
      match splitSep sep rest with
      | [] => [[c]]
      | g :: gs => (c :: g) :: gs

/-- Decidable equality of `Except` results, to let decoder outcomes be
evaluated on concrete inputs. -/
instance {ε α : Type} [DecidableEq ε] [DecidableEq α] : DecidableEq (Except ε α) :=
  fun x y =>
    match x, y with
    | .error a, .error b =>
      match decEq a b with
      | isTrue h => isTrue (by rw [h])
      | isFalse h => isFalse (by intro hc; injection hc; contradiction)
    | .ok a, .ok b =>
      match decEq a b with
      | isTrue h => isTrue (by rw [h])
      | isFalse h => isFalse (by intro hc; injection hc; contradiction)
    | .error _, .ok _ => isFalse (by intro hc; exact Except.noConfusion hc)
    | .ok _, .error _ => isFalse (by intro hc; exact Except.noConfusion hc)

/-! ## Integer parsing (`u8::from_str_radix` / `u16::from_str_radix`)

Rust's `from_str_radix` for an unsigned type strips one optional leading
`'+'`, requires at least one digit, converts digit by digit, and fails on the
first non-digit or as soon as the checked accumulator would exceed the type's
maximum (`bound`). -/

/-- Digit value of a character in radix 16 (`char::to_digit(16)`). -/
def hexVal (c : Char) : Option Nat :=
  if 48 ≤ c.toNat ∧ c.toNat ≤ 57 then some (c.toNat - 48)
  else if 97 ≤ c.toNat ∧ c.toNat ≤ 102 then some (c.toNat - 87)
  else if 65 ≤ c.toNat ∧ c.toNat ≤ 70 then some (c.toNat - 55)
  else none

/-- Digit value of a character in radix 10 (`char::to_digit(10)`). -/
def decVal (c : Char) : Option Nat :=
  if 48 ≤ c.toNat ∧ c.toNat ≤ 57 then some (c.toNat - 48) else none

/-- Strip one optional leading `'+'` sign. -/
def stripPlus : List Char → List Char
  | [] => []
  | c :: rest => if c = '+' then rest else c :: rest

/-- Digit-accumulation loop of `from_str_radix` with checked arithmetic
against the type maximum `bound`. -/
def digitsAcc (digit : Char → Option Nat) (radix bound : Nat) :
    List Char → Nat → Option Nat
  | [], acc => some acc
  | c :: rest, acc =>
    match digit c with
    | none => none
    | some d =>
      if acc * radix + d ≤ bound then digitsAcc digit radix bound rest (acc * radix + d)
      else none

/-- `from_str_radix` for an unsigned integer type with maximum `bound`. -/
def fromStrRadix (digit : Char → Option Nat) (radix bound : Nat)
    (s : List Char) : Option Nat :=
  match stripPlus s with
  | [] => none
  | s2 => digitsAcc digit radix bound s2 0

/-! ## MAC addresses (`MacAddr`, mac.rs) -/

/-- `MacAddr` (mac.rs 37): six raw bytes. -/
structure MacAddr6 where
  b0 : Nat
  b1 : Nat
  b2 : Nat
  b3 : Nat
  b4 : Nat
  b5 : Nat
deriving DecidableEq

/-- `ParseError` (mac.rs 10-15). -/
inductive MacParseError where
  | invalidDigit
  | invalidLength
deriving DecidableEq

/-- The `for b in s.split(':')` loop of `MacAddr::from_str` (mac.rs 71-89):
rejects a seventh group before parsing it, parses each group as a radix-16
`u8`, and finally requires exactly six groups. -/
def macGo : List (List Char) → List Nat → Except MacParseError (List Nat)
  | [], acc => if acc.length = 6 then .ok acc else .error .invalidLength
  | g :: gs, acc =>
    if acc.length = 6 then .error .invalidLength
    else
      match fromStrRadix hexVal 16 255 g with
      | none => .error .invalidDigit
      | some v => macGo gs (acc ++ [v])

/-- `MacAddr::from_str` (mac.rs 68-90).  The six parsed values are read back
out of the `[u8; 6]` buffer the loop filled. -/
def macFromStr (s : List Char) : Except MacParseError MacAddr6 :=
  match macGo (splitSep ':' s) [] with
  | .error e => .error e
  | .ok l => .ok ⟨l.getD 0 0, l.getD 1 0, l.getD 2 0, l.getD 3 0, l.getD 4 0, l.getD 5 0⟩

/-- Lowercase hex digit of a nibble as Rust's `{:x}` integer formatter
renders it: `0`-`9` for values below ten, then `a`-`f`. -/
def hexChar (n : Nat) : Char :=
  if n < 10 then Char.ofNat (48 + n) else Char.ofNat (87 + n)

/-- Two-digit lowercase hex rendering of one octet: Rust's `{:<02x}` format.
The `0` flag's sign-aware zero padding overrides the alignment, so a value
below 16 renders with a leading zero — the repository's `test_display` test
pins `format!("{}", MacAddr([220, …]))` to `"dc:a9:04:97:9d:9b"`. -/
def hex2 (n : Nat) : List Char := [hexChar (n / 16), hexChar (n % 16)]

/-- `<MacAddr as LowerHex>::fmt` (mac.rs 98-108): octets in lowercase
two-digit hex separated by colons. -/
def macFormat (m : MacAddr6) : List Char :=
  hex2 m.b0 ++ ':' :: hex2 m.b1 ++ ':' :: hex2 m.b2 ++ ':' :: hex2 m.b3 ++
    ':' :: hex2 m.b4 ++ ':' :: hex2 m.b5

/-! ## Firmware version (`Version`, protocol/version.rs) -/

/-- The `for b in v.split('.')` loop of `Version::from_str`
(version.rs 13-27): stops after four components (extras ignored), parses each
as a decimal `u16`, and leaves missing trailing components at 0 (the `[u16; 4]`
buffer is zero-initialised). -/
def verGo : List (List Char) → List Nat → Option (List Nat)
  | [], acc => some (acc ++ List.replicate (4 - acc.length) 0)
  | g :: gs, acc =>
    if acc.length = 4 then some acc
    else
      match fromStrRadix decVal 10 65535 g with
      | none => none
      | some v => verGo gs (acc ++ [v])

/-- `Version::from_str` (version.rs 13-27). -/
def versionFromStr (s : List Char) : Option (List Nat) := verGo (splitSep '.' s) []

/-! ## UTF-8 validation (`str::from_utf8` / `String::from_utf8`)

Rust validates strictly per RFC 3629: continuation bytes in `80..BF`,
no overlong encodings (first byte `C0`/`C1` rejected, `E0` requires a second
byte ≥ `A0`, `F0` requires ≥ `90`), no surrogates (`ED` requires a second byte
< `A0`), and nothing above U+10FFFF (`F4` requires a second byte < `90`,
first bytes `F5..FF` rejected). -/

/-- Strict UTF-8 decoding of a byte list into its scalar values. -/
def utf8Decode : List Nat → Option (List Char)
  | [] => some []
  | b :: rest =>
    if b < 128 then
      match utf8Decode rest with
      | none => none
      | some cs => some (Char.ofNat b :: cs)
    else if b < 194 then none
    else if b < 224 then
      match rest with
      | c1 :: rest2 =>
        if 128 ≤ c1 ∧ c1 < 192 then
          match utf8Decode rest2 with
          | none => none
          | some cs => some (Char.ofNat ((b - 192) * 64 + (c1 - 128)) :: cs)
        else none
      | [] => none
    else if b < 240 then
      match rest with
      | c1 :: c2 :: rest2 =>
        let lo : Nat := if b = 224 then 160 else 128
        let hi : Nat := if b = 237 then 160 else 192
        if lo ≤ c1 ∧ c1 < hi ∧ 128 ≤ c2 ∧ c2 < 192 then
          match utf8Decode rest2 with
          | none => none
          | some cs =>
            some (Char.ofNat (((b - 224) * 64 + (c1 - 128)) * 64 + (c2 - 128)) :: cs)
        else none
      | _ => none
    else if b < 245 then
      match rest with
      | c1 :: c2 :: c3 :: rest2 =>
        let lo : Nat := if b = 240 then 144 else 128
        let hi : Nat := if b = 244 then 144 else 192
        if lo ≤ c1 ∧ c1 < hi ∧ 128 ≤ c2 ∧ c2 < 192 ∧ 128 ≤ c3 ∧ c3 < 192 then
          match utf8Decode rest2 with
          | none => none
          | some cs =>
            some (Char.ofNat ((((b - 240) * 64 + (c1 - 128)) * 64 + (c2 - 128)) * 64
              + (c3 - 128)) :: cs)
        else none
      | _ => none
    else none

/-! ## Scan-reply identity decoding (`ScanInfo::try_from`)

Two implementations exist in the repository: the typed one in `protocol.rs`
(22-54, `MacAddr`/`Version` fields, distinct static error strings) and the
string-based one in `lib.rs` (46-66, `String` fields, `FromUtf8Error`
propagated by `?` — modelled by a single error string).  Both split the input
on nul and take the first piece as the MAC field and the second as the
version field. -/

/-- `ScanInfo` of protocol.rs 14-20. -/
structure ScanInfoP where
  mac : MacAddr6
  version : List Nat
deriving DecidableEq

/-- `<ScanInfo as TryFrom<&[u8]>>::try_from` of protocol.rs 22-54. -/
def scanInfoProto (v : List Nat) : Except String ScanInfoP :=
  match splitSep 0 v with
  | [] => .error "missing MAC address"
  | macB :: rest =>
    match utf8Decode macB with
    | none => .error "MAC address contains invalid UTF-8 sequence"
    | some macS =>
      match macFromStr macS with
      | .error _ => .error "MAC address is invalid"
      | .ok mac =>
        match rest with
        | [] => .error "missing version"
        | verB :: _ =>
          match utf8Decode verB with
          | none => .error "version contains invalid UTF-8 sequence"
          | some verS =>
            match versionFromStr verS with
            | none => .error "version is invalid"
            | some ver => .ok ⟨mac, ver⟩

/-- `<ScanInfo as TryFrom<&[u8]>>::try_from` of lib.rs 46-66: only UTF-8
validation, no MAC/version format validation. -/
def scanInfoLib (v : List Nat) : Except String (List Char × List Char) :=
  match splitSep 0 v with
  | [] => .error "missing mac address"
  | macB :: rest =>
    match utf8Decode macB with
    | none => .error "invalid utf-8 sequence"
    | some macS =>
      match rest with
      | [] => .error "missing version"
      | verB :: _ =>
        match utf8Decode verB with
        | none => .error "invalid utf-8 sequence"
        | some verS => .ok (macS, verS)

/-! ## Discovery receive loop (`lookup`, lib.rs 104-143)

Each received datagram is processed by cursor reads: 2 magic bytes (a short
read propagates an `UnexpectedEof` I/O error), magic comparison (mismatch is
the fatal `"invalid magic header"`), a big-endian `u16` opcode (non-reply
opcodes `continue` the loop), 16 cid bytes, and `ScanInfo::try_from` on the
remainder (its errors propagate out of the loop via `?`). -/

/-- Outcome of `lookup`'s body for a single received datagram. -/
inductive LookupStep where
  | fatal (e : String)
  | skip
  | reply (cid : List Nat) (mac : List Char) (version : List Char)
deriving DecidableEq

/-- One iteration of `lookup`'s receive loop on datagram `d`. -/
def lookupStep (d : List Nat) : LookupStep :=
  if d.length < 2 then .fatal "unexpected end of file"
  else if d.take 2 ≠ MAGIC then .fatal "invalid magic header"
  else if d.length < 4 then .fatal "unexpected end of file"
  else if beU16 (d.getD 2 0) (d.getD 3 0) ≠ cmdScanReply then .skip
  else if d.length < 20 then .fatal "unexpected end of file"
  else
    match scanInfoLib (d.drop 20) with
    | .error e => .fatal e
    | .ok (mac, ver) => .reply ((d.drop 4).take 16) mac ver

/-- `lookup`'s receive loop over the sequence of received datagrams, each
paired with its UDP source address (modelled as a `Nat` tag).  The `[]` case
models the loop still blocked in `recv_from`: no claim depends on it. -/
def lookupLoop : List (List Nat × Nat) → Except String (Nat × List Nat × List Char × List Char)
  | [] => .error "blocked in recv_from"
  | (d, a) :: rest =>
    match lookupStep d with
    | .fatal e => .error e
    | .skip => lookupLoop rest
    | .reply cid mac ver => .ok (a, cid, mac, ver)

/-- Outcome of decoding one would-be scan reply with the typed
`ScanInfo` decoder of protocol.rs (the spec's `decode_scan_reply`). -/
inductive ScanReplyStep where
  | fatal (e : String)
  | skip
  | reply (cid : List Nat) (info : ScanInfoP)
deriving DecidableEq

/-- The spec's `decode_scan_reply`: the framing performed by `lookup` (magic,
opcode, cid) combined with the typed `ScanInfo::try_from` of protocol.rs. -/
def decode_scan_reply (d : List Nat) : ScanReplyStep :=
  if d.length < 2 then .fatal "unexpected end of file"
  else if d.take 2 ≠ MAGIC then .fatal "invalid magic header"
  else if d.length < 4 then .fatal "unexpected end of file"
  else if beU16 (d.getD 2 0) (d.getD 3 0) ≠ cmdScanReply then .skip
  else if d.length < 20 then .fatal "unexpected end of file"
  else
    match scanInfoProto (d.drop 20) with
    | .error e => .fatal e
    | .ok info => .reply ((d.drop 4).take 16) info

/-! ## FrameProxy connection loop (`process`, bin/rtpproxy.rs 15-74)

`process` keeps a fixed 8192-byte buffer with a consumed offset `rx_offset`
and a fill offset `rd_offset`.  Each outer iteration reads into
`buf[rd_offset..]` (a zero-length read exits the loop cleanly with `Ok`),
then repeatedly calls `rmpv::decode::read_value_ref` on `buf[rx_offset..
rd_offset]`: every decoded binary-string payload is re-emitted as a UDP
datagram (a send failure is only logged) and `rx_offset` advances by the
bytes consumed; any other decoded value returns the fatal
`"unexpected frame"` error; a truncated frame (`UnexpectedEof`) breaks to
read more bytes.  Finally the undecoded remainder is moved to offset 0 with
`core::ptr::copy` — an overlap-safe `memmove`, so compaction keeps exactly
the unconsumed suffix.  The model's per-iteration state is therefore just
that remainder. -/

/-- Fixed receive-buffer capacity of `process` (`let mut buf = [0; 8192]`). -/
def CAP : Nat := 8192

/-- Result of one `rmpv::decode::read_value_ref` call on the undecoded bytes:
a binary-string payload together with the bytes following the frame, a
successfully decoded non-binary value, or an `UnexpectedEof` truncation. -/
inductive ReadRes where
  | bin (payload rest : List Nat)
  | nonbin
  | eof

/-- `rmpv::decode::read_value_ref` on the wire contract: the three msgpack
binary-string markers `c4`/`c5`/`c6` carry one, two or four big-endian length
bytes and then the payload.  A buffer ending inside a frame (or empty) yields
`eof` — rmp surfaces the truncation as an `UnexpectedEof` I/O error.  Any
other marker byte decodes to a non-binary value or a hard decode error;
`process` terminates the connection with an error in either case, so the
model collapses the two into `nonbin`. -/
def readValueRef : List Nat → ReadRes
  | 196 :: l :: r2 =>
    if r2.length < l then .eof else .bin (r2.take l) (r2.drop l)
  | 197 :: a :: b :: r2 =>
    if r2.length < a * 256 + b then .eof
    else .bin (r2.take (a * 256 + b)) (r2.drop (a * 256 + b))
  | 198 :: a :: b :: c :: d :: r2 =>
    if r2.length < ((a * 256 + b) * 256 + c) * 256 + d then .eof
    else .bin (r2.take (((a * 256 + b) * 256 + c) * 256 + d))
      (r2.drop (((a * 256 + b) * 256 + c) * 256 + d))
  | [] => .eof
  | [196] => .eof
  | [197] => .eof
  | [197, _] => .eof
  | [198] => .eof
  | [198, _] => .eof
  | [198, _, _] => .eof
  | [198, _, _, _] => .eof
  | _ => .nonbin

/-- A decoded binary frame consumes its marker and length bytes, so the
remaining bytes are strictly shorter.  (Stated before `drain`, whose
well-founded recursion it justifies.) -/
theorem readValueRef_bin_length {buf p rest : List Nat}
    (h : readValueRef buf = .bin p rest) : rest.length + 2 ≤ buf.length := by
  match buf, h with
  | 196 :: l :: r2, h =>
    rw [readValueRef] at h
    split_ifs at h with hlt
    injection h with h1 h2
    subst h2
    simp only [List.length_drop, List.length_cons]
    omega
  | 197 :: a :: b :: r2, h =>
    rw [readValueRef] at h
    split_ifs at h with hlt
    injection h with h1 h2
    subst h2
    simp only [List.length_drop, List.length_cons]
    omega
  | 198 :: a :: b :: c :: d :: r2, h =>
    rw [readValueRef] at h
    split_ifs at h with hlt
    injection h with h1 h2
    subst h2
    simp only [List.length_drop, List.length_cons]
    omega
  | [], h => exact ReadRes.noConfusion h
  | [196], h => exact ReadRes.noConfusion h
  | [197], h => exact ReadRes.noConfusion h
  | [197, x], h => exact ReadRes.noConfusion h
  | [198], h => exact ReadRes.noConfusion h
  | [198, x], h => exact ReadRes.noConfusion h
  | [198, x, y], h => exact ReadRes.noConfusion h
  | [198, x, y, z], h => exact ReadRes.noConfusion h

/-- The inner decode loop of `process` (rtpproxy.rs 34-56): decode and emit
complete binary frames until the remainder is a truncated frame (kept, with
the emissions, as the new state) or a non-binary value aborts the
connection. -/
def drain (buf : List Nat) : Except String (List (List Nat) × List Nat) :=
  match h : readValueRef buf with
  | .eof => .ok ([], buf)
  | .nonbin => .error "unexpected frame"
  | .bin p rest =>
    match drain rest with
    | .error e => .error e
    | .ok (outs, rem) => .ok (p :: outs, rem)
termination_by buf.length
decreasing_by
  have := readValueRef_bin_length h
  omega

/-- The outer read loop of `process` (rtpproxy.rs 24-73) over the sequence of
byte counts the successive `stream.read(&mut buf[rd_offset..])` calls return.
A real read delivers at most the free buffer space and at most the bytes the
peer has pending, so the count actually consumed is clamped to both; a
zero-count read is exactly the case in which Rust's `read` returns `Ok(0)`
(empty free slice, or end of stream) and the loop exits cleanly with `Ok`.
The result collects the payloads emitted over the connection's lifetime
(emissions made before a fatal error are dropped with it — no claim depends
on them). -/
def run : List Nat → List Nat → List Nat → Except String (List (List Nat))
  | [], _, _ => .ok []
  | n :: sched, pending, rem =>
    let cnt := min n (min (CAP - rem.length) pending.length)
    if cnt = 0 then .ok []
    else
      match drain (rem ++ pending.take cnt) with
      | .error e => .error e
      | .ok (outs, rem2) =>
        match run sched (pending.drop cnt) rem2 with
        | .error e => .error e
        | .ok outs2 => .ok (outs ++ outs2)

/-- A byte list is a well-formed binary-string envelope for a payload: one of
the three marker/length encodings the encoder side (`rmpv::encode`) can emit
and the decoder accepts. -/
inductive IsEnv : List Nat → List Nat → Prop where
  | bin8 (p : List Nat) (h : p.length < 256) : IsEnv (196 :: p.length :: p) p
  | bin16 (p : List Nat) (h : p.length < 65536) :
      IsEnv (197 :: p.length / 256 :: p.length % 256 :: p) p
  | bin32 (p : List Nat) (h : p.length < 4294967296) :
      IsEnv (198 :: p.length / 16777216 :: p.length / 65536 % 256 ::
        p.length / 256 % 256 :: p.length % 256 :: p) p

/-! ## Theorems for claims C1, C4, C5, C6 -/

/-- Claim C1, counterexample: the 16-byte datagram `00 00 01 00` followed by
twelve zero bytes has frame-type byte 1 but RTP version 0 (≠ 2) and SSRC 0
(≠ the fixed video-track value), yet the `stream` receive loop forwards it —
the loop never checks the version or SSRC fields, so the claimed "if and only
if" is false at this input. -/
theorem stream_filter_counterexample :
    streamFilter ([0, 0, 1, 0] ++ List.replicate 12 0) = some (List.replicate 12 0) ∧
    (headerFromSlice (([0, 0, 1, 0] ++ List.replicate 12 0).drop 4)).map headerVersion
      = some 0 ∧
    (headerFromSlice (([0, 0, 1, 0] ++ List.replicate 12 0).drop 4)).map headerSsrc
      = some 0 ∧
    (0 : Nat) ≠ 2 ∧ (0 : Nat) ≠ videoSSRC := by
  refine ⟨by decide, by decide, by decide, by decide, by decide⟩

/-- Claim C1, amended: the `stream` receive loop forwards the payload to the
sink if and only if the datagram has at least 16 bytes and its frame-type byte
(raw byte index 2) equals the video value 1; the RTP version and SSRC fields
are not examined.  A forwarded payload is exactly bytes `4..size` of the
datagram, and any other datagram is discarded with the loop continuing. -/
theorem stream_filter_amended (d p : List Nat) :
    streamFilter d = some p ↔ 16 ≤ d.length ∧ d.getD 2 0 = 1 ∧ p = d.drop 4 := by
  unfold streamFilter
  split_ifs with h1 h2
  · constructor
    · intro hc
      exact hc.elim
    · rintro ⟨h16, -, -⟩
      omega
  · constructor
    · intro hc
      exact hc.elim
    · rintro ⟨-, hg, -⟩
      exact absurd hg h2
  · constructor
    · intro hc
      injection hc with h'
      exact ⟨by omega, not_not.mp h2, h'.symm⟩
    · rintro ⟨-, -, hp⟩
      rw [hp]

/-- Claim C4, counterexample: the empty cid and the one-byte cid `"0"` encode
to identical commands, so the original id bytes are not recoverable from the
cid field (the ASCII-`'0'` padding is indistinguishable from id bytes that are
themselves `'0'`). -/
theorem create_command_cid_collision :
    create_command cmdScan [] [] = create_command cmdScan [48] [] ∧
    ([] : List Nat) ≠ [48] := by
  refine ⟨by decide, by decide⟩

/-- Claim C4, amended: command encoding is total and produces a buffer of
length exactly `4 + 16 + len(args)`; bytes `4..20` consist of the first
`min(len(cid), 15)` cid bytes, right-padded with the ASCII digit `'0'` up to
15 bytes, followed by one nul terminator, and bytes `20..` are the argument
bytes verbatim — but the original id is not in general recoverable from the
field (see the counterexample). -/
theorem create_command_layout (cmd : Nat) (cid args : List Nat) :
    (create_command cmd cid args).length = 4 + 16 + args.length ∧
    ((create_command cmd cid args).drop 4).take 16
      = cid.take 15 ++ List.replicate (15 - cid.length) 48 ++ [0] ∧
    (create_command cmd cid args).drop 20 = args := by
  have hF : (cid.take 15 ++ List.replicate (15 - cid.length) 48).length = 15 := by
    simp [List.length_take]
    omega
  have heq : create_command cmd cid args
      = [77, 74, cmd / 256 % 256, cmd % 256] ++
        ((cid.take 15 ++ List.replicate (15 - cid.length) 48) ++ (0 :: args)) := by
    unfold create_command
    by_cases h : cid.length > 15
    · have h15 : (cid.take 15).length = 15 := by
        simp [List.length_take]
        omega
      have h0 : (15 : Nat) - cid.length = 0 := by omega
      simp only [if_pos h, h15, h0, Nat.sub_self, List.replicate_zero, MAGIC, be16]
      simp
    · have htake : cid.take 15 = cid := List.take_of_length_le (by omega)
      simp only [if_neg h, htake, MAGIC, be16]
      simp
  refine ⟨?_, ?_, ?_⟩
  · rw [heq, List.length_append, List.length_append, hF]
    simp
    omega
  · rw [heq,
      show (4 : Nat) = ([77, 74, cmd / 256 % 256, cmd % 256] : List Nat).length from rfl,
      List.drop_left,
      show (16 : Nat) = (cid.take 15 ++ List.replicate (15 - cid.length) 48).length + 1 by
        rw [hF],
      List.take_append]
    simp
  · have h4 : (create_command cmd cid args).drop 4
        = (cid.take 15 ++ List.replicate (15 - cid.length) 48) ++ (0 :: args) := by
      rw [heq,
        show (4 : Nat) = ([77, 74, cmd / 256 % 256, cmd % 256] : List Nat).length from rfl,
        List.drop_left]
    rw [← List.drop_drop 16 4, h4,
      show (16 : Nat) = (cid.take 15 ++ List.replicate (15 - cid.length) 48).length + 1 by
        rw [hF],
      List.drop_append]
    simp

/-- Claim C6, counterexample: the discovery scan request is 58 bytes, not 60 —
its fixed zero-string argument is 38 bytes long, not 40. -/
theorem lookup_request_length_counterexample :
    lookupRequest.length = 58 ∧ (58 : Nat) ≠ 60 := by
  refine ⟨by decide, by decide⟩

/-- Claim C6, amended: the discovery scan request is the byte sequence
`[magic bytes 4d 4a][opcode 0x1004 big-endian][16-byte cid field of zero-id
padding (fifteen ASCII '0's and a nul)][fixed 38-byte zero-string argument]`,
making the whole request `4 + 16 + 38 = 58` bytes. -/
theorem lookup_request_layout :
    lookupRequest
      = MAGIC ++ [0x10, 0x04] ++ (List.replicate 15 48 ++ [0]) ++ List.replicate 38 48 ∧
    lookupRequest.length = 58 := by
  refine ⟨by decide, by decide⟩

/-- Claim C5: for every Unix time (in nanoseconds), the keep-alive datagram
built by `send_rtcp` is exactly 32 bytes: the vendor header `00 00 01 00`,
the byte pair `80 c8`, the length field `00 06`, the fixed 32-bit constant 2,
a 64-bit NTP-style timestamp whose high 32 bits are the Unix time in seconds
plus 2208988800 and whose low 32 bits are the sub-second part (at the code's
millisecond resolution) scaled to `2^32` units, then three zero 32-bit words.
The hypothesis keeps the seconds field inside `u32` range (true until 2036). -/
theorem send_rtcp_layout (nanos : Nat)
    (h : nanos / 1000000000 + 2208988800 < 4294967296) :
    (sendRtcpPacket nanos).length = 32 ∧
    (sendRtcpPacket nanos).take 8 = [0x00, 0x00, 0x01, 0x00, 0x80, 0xc8, 0x00, 0x06] ∧
    ((sendRtcpPacket nanos).drop 8).take 4 = be32 2 ∧
    ((sendRtcpPacket nanos).drop 12).take 4 = be32 (nanos / 1000000000 + 2208988800) ∧
    ((sendRtcpPacket nanos).drop 16).take 4
      = be32 (4294967296 * (nanos % 1000000000 / 1000000) / 1000) ∧
    (sendRtcpPacket nanos).drop 20 = List.replicate 12 0 := by
  have hsec : (nanos / 1000000 + 2208988800000) / 1000 = nanos / 1000000000 + 2208988800 := by
    rw [show (2208988800000 : Nat) = 2208988800 * 1000 from rfl,
      Nat.add_mul_div_right _ _ (by norm_num : (0 : Nat) < 1000),
      Nat.div_div_eq_div_mul]
  have hfrac : (nanos / 1000000 + 2208988800000) % 1000 = nanos % 1000000000 / 1000000 := by
    rw [show (2208988800000 : Nat) = 2208988800 * 1000 from rfl,
      Nat.add_mul_mod_self_right]
    have h2 := Nat.mod_mul_right_div_self nanos 1000000 1000
    norm_num at h2
    exact h2.symm
  have hflt : 4294967296 * ((nanos / 1000000 + 2208988800000) % 1000) / 1000 < 4294967296 := by
    have hm : (nanos / 1000000 + 2208988800000) % 1000 < 1000 := Nat.mod_lt _ (by norm_num)
    exact Nat.div_lt_of_lt_mul (by omega)
  simp only [sendRtcpPacket]
  rw [hsec, Nat.mod_eq_of_lt h, Nat.mod_eq_of_lt hflt, hfrac]
  exact ⟨rfl, rfl, rfl, rfl, rfl, rfl⟩

/-- Claim C5 witness at the concrete Unix time 1.5 seconds. -/
theorem send_rtcp_layout_witness :
    (sendRtcpPacket 1500000000).length = 32 :=
  (send_rtcp_layout 1500000000 (by norm_num)).1

/-! ## Splitting lemmas -/

/-- Rust's `split` always yields at least one piece. -/
theorem splitSep_ne_nil {α : Type} [DecidableEq α] (sep : α) (l : List α) :
    splitSep sep l ≠ [] := by
  induction l with
  | nil => simp [splitSep]
  | cons c rest ih =>
    unfold splitSep
    split_ifs
    · simp
    · cases h : splitSep sep rest <;> simp

/-- A separator-free list splits into itself alone. -/
theorem splitSep_eq_single {α : Type} [DecidableEq α] (sep : α) (l : List α)
    (h : sep ∉ l) : splitSep sep l = [l] := by
  induction l with
  | nil => rfl
  | cons c rest ih =>
    have hc : c ≠ sep := fun e => h (by simp [e])
    have hr : sep ∉ rest := fun hm => h (by simp [hm])
    unfold splitSep
    rw [if_neg hc, ih hr]

/-- Splitting peels a leading separator-free group. -/
theorem splitSep_append_cons {α : Type} [DecidableEq α] (sep : α) (g rest : List α)
    (h : sep ∉ g) : splitSep sep (g ++ sep :: rest) = g :: splitSep sep rest := by
  induction g with
  | nil => simp [splitSep]
  | cons c g ih =>
    have hc : c ≠ sep := fun e => h (by simp [e])
    have hg : sep ∉ g := fun hm => h (by simp [hm])
    simp only [List.cons_append, splitSep]
    rw [if_neg hc, show g.append (sep :: rest) = g ++ sep :: rest from rfl, ih hg]

/-! ## Theorems for claims C7, C8, C10 -/

/-- Claim C7: in the discovery receive loop, a datagram whose leading two
bytes mismatch the magic constant fails the whole attempt immediately with the
protocol error `"invalid magic header"`; a datagram with valid magic but an
opcode other than the scan-reply opcode is skipped and the loop continues on
the remaining datagrams; and the first successfully decoded reply makes the
loop return the UDP source address of that very datagram as the camera
endpoint. -/
theorem lookup_loop_spec :
    (∀ (d : List Nat) (a : Nat) (rest : List (List Nat × Nat)),
      2 ≤ d.length → d.take 2 ≠ MAGIC →
      lookupLoop ((d, a) :: rest) = .error "invalid magic header") ∧
    (∀ (d : List Nat) (a : Nat) (rest : List (List Nat × Nat)),
      d.take 2 = MAGIC → 4 ≤ d.length →
      beU16 (d.getD 2 0) (d.getD 3 0) ≠ cmdScanReply →
      lookupLoop ((d, a) :: rest) = lookupLoop rest) ∧
    (∀ (d : List Nat) (a : Nat) (rest : List (List Nat × Nat))
      (cid : List Nat) (mac ver : List Char),
      lookupStep d = .reply cid mac ver →
      lookupLoop ((d, a) :: rest) = .ok (a, cid, mac, ver)) := by
  refine ⟨?_, ?_, ?_⟩
  · intro d a rest hlen hm
    have hstep : lookupStep d = .fatal "invalid magic header" := by
      unfold lookupStep
      rw [if_neg (by omega), if_pos hm]
    simp [lookupLoop, hstep]
  · intro d a rest hm hlen hop
    have hstep : lookupStep d = .skip := by
      unfold lookupStep
      rw [if_neg (by omega), if_neg (by simp [hm]), if_neg (by omega), if_pos hop]
    simp [lookupLoop, hstep]
  · intro d a rest cid mac ver hstep
    simp [lookupLoop, hstep]

/-- Claim C7 witness: concrete datagrams exercising all three branches. -/
theorem lookup_loop_spec_witness :
    lookupLoop [([0, 0, 0, 0], 7)] = .error "invalid magic header" ∧
    lookupLoop [([0x4d, 0x4a, 0, 0], 7), ([0, 0, 0, 0], 9)] = lookupLoop [([0, 0, 0, 0], 9)] ∧
    lookupLoop [(([0x4d, 0x4a, 0x10, 0x0e] ++ List.replicate 16 0 ++ [97, 0, 98]), 5)]
      = .ok (5, List.replicate 16 0, ['a'], ['b']) :=
  ⟨lookup_loop_spec.1 [0, 0, 0, 0] 7 [] (by decide) (by decide),
   lookup_loop_spec.2.1 [0x4d, 0x4a, 0, 0] 7 [([0, 0, 0, 0], 9)]
     (by decide) (by decide) (by decide),
   lookup_loop_spec.2.2 ([0x4d, 0x4a, 0x10, 0x0e] ++ List.replicate 16 0 ++ [97, 0, 98])
     5 [] (List.replicate 16 0) ['a'] ['b'] (by decide)⟩

/-- Claim C8: scan-reply decoding fails with a distinct, stable error for each
of wrong magic, truncated buffer (fewer bytes than the header and cid
require), a non-UTF-8 MAC field, a non-UTF-8 version field, and a missing
version field — and succeeds on the well-formed reply
`4d 4a 10 0e`, 16 zero cid bytes, `"dc:a9:04:97:9d:9b\0" "1.2.3.4\0"`,
yielding MAC `dc:a9:04:97:9d:9b` and version `1.2.3.4`. -/
theorem decode_scan_reply_errors :
    decode_scan_reply ([0, 0] ++ List.replicate 30 0) = .fatal "invalid magic header" ∧
    decode_scan_reply ([0x4d, 0x4a, 0x10, 0x0e] ++ List.replicate 10 0)
      = .fatal "unexpected end of file" ∧
    decode_scan_reply ([0x4d, 0x4a, 0x10, 0x0e] ++ List.replicate 16 0 ++ [255])
      = .fatal "MAC address contains invalid UTF-8 sequence" ∧
    decode_scan_reply ([0x4d, 0x4a, 0x10, 0x0e] ++ List.replicate 16 0 ++
        [100, 99, 58, 97, 57, 58, 48, 52, 58, 57, 55, 58, 57, 100, 58, 57, 98, 0, 255])
      = .fatal "version contains invalid UTF-8 sequence" ∧
    decode_scan_reply ([0x4d, 0x4a, 0x10, 0x0e] ++ List.replicate 16 0 ++
        [100, 99, 58, 97, 57, 58, 48, 52, 58, 57, 55, 58, 57, 100, 58, 57, 98])
      = .fatal "missing version" ∧
    List.Pairwise (· ≠ ·) (["invalid magic header", "unexpected end of file",
      "MAC address contains invalid UTF-8 sequence",
      "version contains invalid UTF-8 sequence", "missing version"] : List String) ∧
    decode_scan_reply ([0x4d, 0x4a, 0x10, 0x0e] ++ List.replicate 16 0 ++
        [100, 99, 58, 97, 57, 58, 48, 52, 58, 57, 55, 58, 57, 100, 58, 57, 98, 0,
         49, 46, 50, 46, 51, 46, 52, 0])
      = .reply (List.replicate 16 0) ⟨⟨220, 169, 4, 151, 157, 155⟩, [1, 2, 3, 4]⟩ := by
  refine ⟨by decide, by decide, by decide, by decide, by decide, by decide, by decide⟩

/-- Claim C10, counterexample: the no-nul input `[255]` does not fail with the
`"missing version"` error — its single field is not valid UTF-8, so decoding
fails on the MAC field first. -/
theorem scan_info_no_nul_counterexample :
    scanInfoProto [255] = .error "MAC address contains invalid UTF-8 sequence" ∧
    (0 : Nat) ∉ ([255] : List Nat) ∧
    ("MAC address contains invalid UTF-8 sequence" : String) ≠ "missing version" := by
  refine ⟨rfl, by decide, by decide⟩

/-- Claim C10, amended: scan-reply identity decoding never returns its
`"missing MAC address"` error (splitting on nul always yields at least one
field, so that branch is unreachable), and an input containing no nul byte
never decodes successfully.  The error it fails with follows the MAC field's
own checks on the whole input: `"missing version"` exactly when the single
field is a valid UTF-8 MAC string, the UTF-8 error when the field is not
valid UTF-8, and the MAC-invalid error when it is valid UTF-8 but not a
parsable MAC address. -/
theorem scan_info_missing_mac_unreachable :
    (∀ v : List Nat, scanInfoProto v ≠ .error "missing MAC address") ∧
    (∀ v : List Nat, 0 ∉ v →
      ((∃ macS mac, utf8Decode v = some macS ∧ macFromStr macS = .ok mac) →
        scanInfoProto v = .error "missing version") ∧
      (utf8Decode v = none →
        scanInfoProto v = .error "MAC address contains invalid UTF-8 sequence") ∧
      (∀ macS e, utf8Decode v = some macS → macFromStr macS = .error e →
        scanInfoProto v = .error "MAC address is invalid")) := by
  constructor
  · intro v
    unfold scanInfoProto
    split
    · rename_i h
      exact absurd h (splitSep_ne_nil 0 v)
    · split
      · decide
      · split
        · decide
        · split
          · decide
          · split
            · decide
            · split
              · decide
              · simp
  · intro v h0
    have hs : splitSep 0 v = [v] := splitSep_eq_single 0 v h0
    refine ⟨?_, ?_, ?_⟩
    · rintro ⟨macS, mac, hu, hm⟩
      unfold scanInfoProto
      rw [hs]
      simp [hu, hm]
    · intro hu
      unfold scanInfoProto
      rw [hs]
      simp [hu]
    · intro macS e hu hm
      unfold scanInfoProto
      rw [hs]
      simp [hu, hm]

/-- Claim C10 witness: no input yields the missing-MAC error, and the three
no-nul cases are each exercised — the nul-free bytes of `"dc:a9:04:97:9d:9b"`
(a valid UTF-8 MAC string) fail with `"missing version"`, `[255]` (invalid
UTF-8) fails with the UTF-8 error, and `[97]` (`"a"`, valid UTF-8 but not a
MAC) fails with the MAC-invalid error. -/
theorem scan_info_missing_mac_unreachable_witness :
    scanInfoProto [97] ≠ .error "missing MAC address" ∧
    scanInfoProto [100, 99, 58, 97, 57, 58, 48, 52, 58, 57, 55, 58, 57, 100, 58, 57, 98]
      = .error "missing version" ∧
    scanInfoProto [255] = .error "MAC address contains invalid UTF-8 sequence" ∧
    scanInfoProto [97] = .error "MAC address is invalid" :=
  ⟨scan_info_missing_mac_unreachable.1 [97],
   (scan_info_missing_mac_unreachable.2
       [100, 99, 58, 97, 57, 58, 48, 52, 58, 57, 55, 58, 57, 100, 58, 57, 98]
       (by decide)).1
     ⟨['d', 'c', ':', 'a', '9', ':', '0', '4', ':', '9', '7', ':', '9', 'd', ':', '9', 'b'],
      ⟨220, 169, 4, 151, 157, 155⟩, by decide, by decide⟩,
   (scan_info_missing_mac_unreachable.2 [255] (by decide)).2.1 (by decide),
   (scan_info_missing_mac_unreachable.2 [97] (by decide)).2.2 ['a']
     MacParseError.invalidLength (by decide) (by decide)⟩

/-! ## Theorems for claim C9 (MAC parse/format round-trip) -/

/-- Hex digits of values below 16 evaluate back to themselves. -/
theorem hexVal_hexChar {k : Nat} (h : k < 16) : hexVal (hexChar k) = some k := by
  interval_cases k <;> decide

/-- Hex digit characters are never the colon separator. -/
theorem hexChar_ne_colon {k : Nat} (h : k < 16) : hexChar k ≠ ':' := by
  interval_cases k <;> decide

/-- Hex digit characters are never a plus sign. -/
theorem hexChar_ne_plus {k : Nat} (h : k < 16) : hexChar k ≠ '+' := by
  interval_cases k <;> decide

/-- A two-digit hex rendering contains no colon. -/
theorem colon_not_mem_hex2 {n : Nat} (h : n < 256) : ':' ∉ hex2 n := by
  have h1 : n / 16 < 16 := by omega
  have h2 : n % 16 < 16 := Nat.mod_lt _ (by norm_num)
  intro hmem
  simp only [hex2, List.mem_cons, List.not_mem_nil, or_false] at hmem
  rcases hmem with hmem | hmem
  · exact hexChar_ne_colon h1 hmem.symm
  · exact hexChar_ne_colon h2 hmem.symm

/-- Parsing a two-digit hex rendering of an octet recovers the octet. -/
theorem parseHex2 {n : Nat} (h : n < 256) : fromStrRadix hexVal 16 255 (hex2 n) = some n := by
  have h1 : n / 16 < 16 := by omega
  have h2 : n % 16 < 16 := Nat.mod_lt _ (by norm_num)
  have e1 : stripPlus (hex2 n) = hex2 n := by
    simp only [hex2, stripPlus]
    rw [if_neg (hexChar_ne_plus h1)]
  have c1 : 0 * 16 + n / 16 ≤ 255 := by omega
  have c2 : (0 * 16 + n / 16) * 16 + n % 16 ≤ 255 := by omega
  unfold fromStrRadix
  rw [e1]
  show digitsAcc hexVal 16 255 [hexChar (n / 16), hexChar (n % 16)] 0 = some n
  simp only [digitsAcc, hexVal_hexChar h1, hexVal_hexChar h2]
  rw [if_pos c1, if_pos c2]
  congr 1
  omega

/-- Claim C9: for every 6-byte MAC address value, parsing the string produced
by formatting it yields the original value (`parse(format(mac)) == mac`). -/
theorem mac_roundtrip (m : MacAddr6)
    (h0 : m.b0 < 256) (h1 : m.b1 < 256) (h2 : m.b2 < 256)
    (h3 : m.b3 < 256) (h4 : m.b4 < 256) (h5 : m.b5 < 256) :
    macFromStr (macFormat m) = .ok m := by
  have hsplit : splitSep ':' (macFormat m)
      = [hex2 m.b0, hex2 m.b1, hex2 m.b2, hex2 m.b3, hex2 m.b4, hex2 m.b5] := by
    unfold macFormat
    simp only [List.cons_append, List.append_assoc]
    rw [splitSep_append_cons ':' _ _ (colon_not_mem_hex2 h0),
      splitSep_append_cons ':' _ _ (colon_not_mem_hex2 h1),
      splitSep_append_cons ':' _ _ (colon_not_mem_hex2 h2),
      splitSep_append_cons ':' _ _ (colon_not_mem_hex2 h3),
      splitSep_append_cons ':' _ _ (colon_not_mem_hex2 h4),
      splitSep_eq_single ':' _ (colon_not_mem_hex2 h5)]
  unfold macFromStr
  rw [hsplit]
  simp [macGo, parseHex2 h0, parseHex2 h1, parseHex2 h2, parseHex2 h3,
    parseHex2 h4, parseHex2 h5]

/-- Claim C9 witness at the repository's own test vector
`dc:a9:04:97:9d:9b`. -/
theorem mac_roundtrip_witness :
    macFromStr (macFormat ⟨220, 169, 4, 151, 157, 155⟩)
      = .ok ⟨220, 169, 4, 151, 157, 155⟩ :=
  mac_roundtrip ⟨220, 169, 4, 151, 157, 155⟩ (by decide) (by decide) (by decide)
    (by decide) (by decide) (by decide)

/-! ## Decoder lemmas and theorems for claims C2 and C3 -/

/-- An envelope is at least two bytes long. -/
theorem IsEnv.two_le {f p : List Nat} (h : IsEnv f p) : 2 ≤ f.length := by
  cases h <;> simp

/-- Decoding at an envelope boundary yields its payload and the trailing
bytes. -/
theorem readValueRef_env {f p : List Nat} (t : List Nat) (h : IsEnv f p) :
    readValueRef (f ++ t) = .bin p t := by
  cases h with
  | bin8 p hp =>
    simp only [List.cons_append, readValueRef]
    rw [if_neg (by simp [List.length_append])]
    rw [List.take_left, List.drop_left]
  | bin16 p hp =>
    have hl : p.length / 256 * 256 + p.length % 256 = p.length := by omega
    simp only [List.cons_append, readValueRef, hl]
    rw [if_neg (by simp [List.length_append])]
    rw [List.take_left, List.drop_left]
  | bin32 p hp =>
    have hl : ((p.length / 16777216 * 256 + p.length / 65536 % 256) * 256
        + p.length / 256 % 256) * 256 + p.length % 256 = p.length := by omega
    simp only [List.cons_append, readValueRef, hl]
    rw [if_neg (by simp [List.length_append])]
    rw [List.take_left, List.drop_left]

/-- Decoding a strict prefix of an envelope reports a truncation. -/
theorem readValueRef_truncated {f p : List Nat} (h : IsEnv f p) (s t : List Nat)
    (hst : s ++ t = f) (hlt : s.length < f.length) : readValueRef s = .eof := by
  cases h with
  | bin8 p hp =>
    cases s with
    | nil => rfl
    | cons m s1 =>
      injection hst with h1 h2
      subst h1
      cases s1 with
      | nil => rfl
      | cons l s2 =>
        injection h2 with h2 h3
        subst h2
        simp only [List.length_cons] at hlt
        rw [readValueRef, if_pos (by omega)]
  | bin16 p hp =>
    cases s with
    | nil => rfl
    | cons m s1 =>
      injection hst with h1 h2
      subst h1
      cases s1 with
      | nil => rfl
      | cons a s2 =>
        injection h2 with h2 h3
        subst h2
        cases s2 with
        | nil => rfl
        | cons b s3 =>
          injection h3 with h3 h4
          subst h3
          simp only [List.length_cons] at hlt
          rw [readValueRef, if_pos (by omega)]
  | bin32 p hp =>
    cases s with
    | nil => rfl
    | cons m s1 =>
      injection hst with h1 h2
      subst h1
      cases s1 with
      | nil => rfl
      | cons a s2 =>
        injection h2 with h2 h3
        subst h2
        cases s2 with
        | nil => rfl
        | cons b s3 =>
          injection h3 with h3 h4
          subst h3
          cases s3 with
          | nil => rfl
          | cons c s4 =>
            injection h4 with h4 h5
            subst h4
            cases s4 with
            | nil => rfl
            | cons d s5 =>
              injection h5 with h5 h6
              subst h5
              simp only [List.length_cons] at hlt
              rw [readValueRef, if_pos (by omega)]

/-- Unfolding `drain` at a truncation. -/
theorem drain_eof {buf : List Nat} (h : readValueRef buf = .eof) :
    drain buf = .ok ([], buf) := by
  unfold drain
  split
  · rfl
  · rename_i hnb
    rw [hnb] at h
    exact ReadRes.noConfusion h
  · rename_i p rest hbin
    rw [hbin] at h
    exact ReadRes.noConfusion h

/-- Unfolding `drain` at a decoded binary frame. -/
theorem drain_bin {buf p rest : List Nat} (h : readValueRef buf = .bin p rest) :
    drain buf = match drain rest with
      | .error e => .error e
      | .ok (outs, rem) => .ok (p :: outs, rem) := by
  conv_lhs => unfold drain
  split
  · rename_i heof
    rw [heof] at h
    exact ReadRes.noConfusion h
  · rename_i hnb
    rw [hnb] at h
    exact ReadRes.noConfusion h
  · rename_i p' rest' hbin
    rw [hbin] at h
    injection h with h1 h2
    subst h1
    subst h2
    rfl

/-- `drain` on any prefix of a valid envelope stream: it decodes and emits
exactly the maximal complete sequence of envelopes, keeps the (strictly
partial) remainder, and never errs. -/
theorem drain_prefix :
    ∀ (fs ps : List (List Nat)), List.Forall₂ IsEnv fs ps →
    ∀ (s t : List Nat), s ++ t = fs.flatten →
    ∃ (qs : List (List Nat)) (rem : List Nat) (gs2 qs2 : List (List Nat)),
      drain s = .ok (qs, rem) ∧
      ps = qs ++ qs2 ∧
      List.Forall₂ IsEnv gs2 qs2 ∧
      rem ++ t = gs2.flatten ∧
      (∃ u, s = u ++ rem) ∧
      (∀ g l, gs2 = g :: l → rem.length < g.length) := by
  intro fs ps h
  induction h with
  | nil =>
    intro s t hst
    have hs : s = [] := (List.append_eq_nil.mp hst).1
    have ht : t = [] := (List.append_eq_nil.mp hst).2
    subst hs
    subst ht
    refine ⟨[], [], [], [], drain_eof rfl, rfl, List.Forall₂.nil, rfl, ⟨[], rfl⟩, ?_⟩
    intro g l hgl
    exact absurd hgl (by simp)
  | @cons f p fs' ps' hf hrest ih =>
    intro s t hst
    rw [List.flatten_cons] at hst
    by_cases hlen : s.length < f.length
    · obtain ⟨n, hn⟩ : ∃ n, n = s.length := ⟨s.length, rfl⟩
      have h2 : (f ++ fs'.flatten).take s.length = f.take s.length :=
        List.take_append_of_le_length (le_of_lt hlen)
      have h1 : f.take n = s := by
        rw [hn, ← h2, ← hst, List.take_left]
      have hsf : s ++ f.drop n = f := by
        rw [← h1, List.take_append_drop]
      have heof : readValueRef s = .eof :=
        readValueRef_truncated hf s (f.drop n) hsf hlen
      refine ⟨[], s, f :: fs', p :: ps', drain_eof heof, rfl,
        List.Forall₂.cons hf hrest, ?_, ⟨[], rfl⟩, ?_⟩
      · rw [List.flatten_cons]
        exact hst
      · intro g l hgl
        injection hgl with e1 e2
        subst e1
        exact hlen
    · push_neg at hlen
      have h1 : s.take f.length = f := by
        have h2 : (s ++ t).take f.length = s.take f.length :=
          List.take_append_of_le_length hlen
        rw [hst] at h2
        rw [← h2, List.take_left]
      obtain ⟨s', hs'⟩ : ∃ s', s' = s.drop f.length := ⟨_, rfl⟩
      have hs : s = f ++ s' := by
        rw [hs']
        conv_lhs => rw [← List.take_append_drop f.length s]
        rw [h1]
      have hs't : s' ++ t = fs'.flatten := by
        have h3 : f ++ (s' ++ t) = f ++ fs'.flatten := by
          rw [← List.append_assoc, ← hs]
          exact hst
        exact List.append_cancel_left h3
      have hread : readValueRef s = .bin p s' := by
        rw [hs]
        exact readValueRef_env s' hf
      obtain ⟨qs, rem, gs2, qs2, hdrain, hps, hforall, hremt, ⟨u, hu⟩, hbound⟩ :=
        ih s' t hs't
      refine ⟨p :: qs, rem, gs2, qs2, ?_, by rw [hps, List.cons_append], hforall, hremt,
        ⟨f ++ u, by rw [hs, hu, List.append_assoc]⟩, hbound⟩
      rw [drain_bin hread, hdrain]

/-- The read loop delivers every payload of a valid envelope stream whose
bytes all fit through the buffer, for any schedule of positive reads. -/
theorem run_delivers :
    ∀ (chunks fs ps : List (List Nat)) (rem : List Nat),
      List.Forall₂ IsEnv fs ps →
      rem ++ chunks.flatten = fs.flatten →
      (∀ c ∈ chunks, c ≠ []) →
      rem.length + chunks.flatten.length ≤ CAP →
      (∀ g l, fs = g :: l → rem.length < g.length) →
      run (chunks.map List.length) chunks.flatten rem = .ok ps := by
  intro chunks
  induction chunks with
  | nil =>
    intro fs ps rem hforall hst hne hcap hbound
    cases hforall with
    | nil => rfl
    | @cons f p fs' ps' hf hrest =>
      exfalso
      have h1 := hbound f fs' rfl
      have h2 : rem = f ++ fs'.flatten := by
        simpa [List.flatten_cons] using hst
      have h3 : f.length ≤ rem.length := by
        rw [h2]
        simp [List.length_append]
      omega
  | cons c cs ih =>
    intro fs ps rem hforall hst hne hcap hbound
    have hcne : c ≠ [] := hne c (by simp)
    have hclen : 0 < c.length := List.length_pos.mpr hcne
    rw [List.flatten_cons] at hst
    rw [List.flatten_cons, List.length_append] at hcap
    have hcnt : min c.length (min (CAP - rem.length) (c ++ cs.flatten).length)
        = c.length := by
      simp only [List.length_append]
      omega
    simp only [List.map_cons, List.flatten_cons, run]
    rw [hcnt, if_neg (by omega), List.take_left, List.drop_left]
    obtain ⟨qs, rem2, gs2, qs2, hdrain, hps, hforall2, hremt, ⟨u, hu⟩, hbound2⟩ :=
      drain_prefix fs ps hforall (rem ++ c) cs.flatten
        (by rw [List.append_assoc]; exact hst)
    have hulen : rem.length + c.length = u.length + rem2.length := by
      have := congrArg List.length hu
      simpa [List.length_append] using this
    have hrec := ih gs2 qs2 rem2 hforall2 hremt
      (fun c' hc' => hne c' (by simp [hc']))
      (by
        have hflat := congrArg List.length hremt
        simp [List.length_append] at hflat
        omega)
      hbound2
    rw [hdrain]
    dsimp only
    rw [hrec]
    dsimp only
    rw [hps]

/-! ## Theorems for claims C2 and C3 -/

/-- Claim C2: for every sequence of byte chunks whose concatenation is a
valid sequence of binary-string envelopes (and fits through the proxy's
8192-byte buffer, as the single-read baseline presumes), the per-connection
decode loop emits exactly the payloads of those envelopes, in order, both
when fed the chunks one read at a time — any split, including one byte at a
time — and when fed the whole concatenation in a single read.  No payload is
lost or duplicated across chunk boundaries. -/
theorem frameproxy_chunk_invariance (fs ps chunks : List (List Nat))
    (henv : List.Forall₂ IsEnv fs ps)
    (hjoin : chunks.flatten = fs.flatten)
    (hne : ∀ c ∈ chunks, c ≠ [])
    (hcap : fs.flatten.length ≤ CAP) :
    run (chunks.map List.length) chunks.flatten [] = .ok ps ∧
    run [fs.flatten.length] fs.flatten [] = .ok ps := by
  have hbound0 : ∀ g l, fs = g :: l → ([] : List Nat).length < g.length := by
    intro g l hgl
    subst hgl
    cases henv with
    | cons hf _ =>
      have := hf.two_le
      simp
      omega
  constructor
  · exact run_delivers chunks fs ps [] henv (by simpa using hjoin) hne
      (by simpa [hjoin] using hcap) hbound0
  · cases henv with
    | nil => rfl
    | @cons f p fs' ps' hf hrest =>
      have hflat_ne : ((f :: fs').flatten : List Nat) ≠ [] := by
        simp only [List.flatten_cons]
        intro hc
        have hf0 : f = [] := (List.append_eq_nil.mp hc).1
        have h2 := hf.two_le
        rw [hf0] at h2
        simp at h2
      have h := run_delivers [(f :: fs').flatten] (f :: fs') (p :: ps') []
        (List.Forall₂.cons hf hrest)
        (by simp)
        (by intro c' hc'; simp at hc'; rw [hc']; exact hflat_ne)
        (by simpa using hcap)
        (by
          intro g l hgl
          injection hgl with e1 e2
          subst e1
          have := hf.two_le
          simp
          omega)
      simpa using h

/-- Claim C2 witness: the two-envelope stream `c4 01 07 c4 02 08 09`
delivered one byte at a time and in one read. -/
theorem frameproxy_chunk_invariance_witness :
    run [1, 1, 1, 1, 1, 1, 1] [196, 1, 7, 196, 2, 8, 9] [] = .ok [[7], [8, 9]] ∧
    run [7] [196, 1, 7, 196, 2, 8, 9] [] = .ok [[7], [8, 9]] := by
  have h := frameproxy_chunk_invariance [[196, 1, 7], [196, 2, 8, 9]] [[7], [8, 9]]
    [[196], [1], [7], [196], [2], [8], [9]]
    (List.Forall₂.cons (IsEnv.bin8 [7] (by decide))
      (List.Forall₂.cons (IsEnv.bin8 [8, 9] (by decide)) List.Forall₂.nil))
    (by decide) (by decide) (by decide)
  exact ⟨by simpa using h.1, by simpa using h.2⟩

/-- Claim C3, counterexample: a single bin32 envelope of total size 9005
(payload length 9000) overflows the 8192-byte buffer.  The first read fills
the buffer with an undecodable truncated frame; the next read is on an empty
slice, returns 0 bytes, and the loop exits cleanly with `Ok` — byte-for-byte
the same outcome as a peer closing the connection gracefully.  The overflow
is neither reported nor closed with an error, so it is not distinguished from
graceful close. -/
theorem proxy_overflow_counterexample :
    run [8192, 813] (198 :: 0 :: 0 :: 35 :: 40 :: List.replicate 9000 0) [] = .ok [] ∧
    run [] [] [] = .ok [] := by
  constructor
  · have hsplit : (198 :: 0 :: 0 :: 35 :: 40 :: List.replicate 9000 0 : List Nat)
        = (198 :: 0 :: 0 :: 35 :: 40 :: List.replicate 8187 0) ++ List.replicate 813 0 := by
      simp only [List.cons_append]
      rw [← List.replicate_add]
    have hlen5 : (198 :: 0 :: 0 :: 35 :: 40 :: List.replicate 8187 0 : List Nat).length
        = 8192 := by
      simp only [List.length_cons, List.length_replicate]
    have hlenP : (198 :: 0 :: 0 :: 35 :: 40 :: List.replicate 9000 0 : List Nat).length
        = 9005 := by
      simp only [List.length_cons, List.length_replicate]
    have hcond : (List.replicate 8187 (0 : Nat)).length < ((0 * 256 + 0) * 256 + 35) * 256 + 40 := by
      simp only [List.length_replicate]
      norm_num
    have heof : readValueRef (198 :: 0 :: 0 :: 35 :: 40 :: List.replicate 8187 0) = .eof := by
      rw [readValueRef, if_pos hcond]
    have htake : (198 :: 0 :: 0 :: 35 :: 40 :: List.replicate 9000 0 : List Nat).take 8192
        = 198 :: 0 :: 0 :: 35 :: 40 :: List.replicate 8187 0 := by
      rw [hsplit, ← hlen5, List.take_left]
    have hdrop : (198 :: 0 :: 0 :: 35 :: 40 :: List.replicate 9000 0 : List Nat).drop 8192
        = List.replicate 813 0 := by
      rw [hsplit, ← hlen5, List.drop_left]
    have hmin1 : min 8192 (min (CAP - ([] : List Nat).length)
        (198 :: 0 :: 0 :: 35 :: 40 :: List.replicate 9000 0 : List Nat).length) = 8192 := by
      rw [hlenP]
      simp only [List.length_nil, Nat.sub_zero, CAP]
      omega
    have hmin2 : min 813 (min (CAP -
        (198 :: 0 :: 0 :: 35 :: 40 :: List.replicate 8187 0 : List Nat).length)
        (List.replicate 813 (0 : Nat)).length) = 0 := by
      rw [hlen5]
      simp only [List.length_replicate, CAP]
      omega
    simp only [run]
    rw [hmin1, if_neg (by norm_num), htake, hdrop, List.nil_append, drain_eof heof]
    dsimp only
    rw [hmin2]
    simp
  · rfl

/-- Claim C3, amended: when the undecodable remainder fills the entire
fixed-size buffer, the next read is issued on an empty slice and returns 0
bytes, so the per-connection loop exits cleanly with `Ok` — exactly as it
does on a zero-length read from a gracefully closed peer, and exactly as it
does when the stream has no bytes left.  The overflow is not reported, not
an error, and not distinguished from graceful close. -/
theorem proxy_overflow_amended :
    (∀ (n : Nat) (sched : List Nat) (pending rem : List Nat),
      rem.length = CAP → run (n :: sched) pending rem = .ok []) ∧
    (∀ pending rem : List Nat, run [] pending rem = .ok []) ∧
    (∀ (n : Nat) (sched : List Nat) (rem : List Nat),
      run (n :: sched) [] rem = .ok []) := by
  refine ⟨?_, ?_, ?_⟩
  · intro n sched pending rem hfull
    simp only [run, hfull]
    rw [show min n (min (CAP - CAP) pending.length) = 0 by simp]
    simp
  · intro pending rem
    rfl
  · intro n sched rem
    simp only [run]
    rw [show min n (min (CAP - rem.length) ([] : List Nat).length) = 0 by simp]
    simp

/-- Claim C3 witness: a full 8192-byte remainder makes the next iteration
exit cleanly even though the peer still has bytes pending. -/
theorem proxy_overflow_amended_witness :
    run [1] [5] (List.replicate 8192 0) = .ok [] :=
  proxy_overflow_amended.1 1 [] [5] (List.replicate 8192 0)
    (by simp only [List.length_replicate, CAP])

end Cleverdog
